import Mathlib

/-!
Verification development for the timestep repository: a shallow embedding of
the Run lifecycle core (Instance Store, Run Step Recorder, Tool-Call
Coordinator, Run Engine) and of the concrete controller code (files
controller, AP model, the engine completions route), with theorems settling
the specified properties.

The Run lifecycle core itself (Run Engine, Instance Store, Tool-Call
Coordinator, Run Step Recorder) is not present in the source slice — only
its tests and callers are — so those components are modelled from the spec,
as indicated on each definition.
-/

namespace Timestep

/-! ## Association-list dictionaries

Python dict operations as used by the source: lookup and plain assignment
(insert-or-replace). -/

/-- Dict lookup `d.get(k)`: the value bound to the key, if any. -/
def assocGet {κ α : Type} [DecidableEq κ] (s : List (κ × α)) (id : κ) : Option α :=
  match s with
  | [] => none
  | (k, v) :: rest => if k = id then some v else assocGet rest id

/-- Plain dict assignment `d[k] = v`: replaces the binding if the key is
present, otherwise appends it. -/
def dictSet {κ α : Type} [DecidableEq κ] (s : List (κ × α)) (id : κ) (v : α) :
    List (κ × α) :=
  if (assocGet s id).isSome then
    s.map (fun p => if p.1 = id then (id, v) else p)
  else
    s ++ [(id, v)]

theorem assocGet_append_self {κ α : Type} [DecidableEq κ]
    (s : List (κ × α)) (id : κ) (v : α)
    (h : assocGet s id = none) : assocGet (s ++ [(id, v)]) id = some v := by
  induction s with
  | nil => simp [assocGet]
  | cons p rest ih =>
    rw [assocGet] at h
    by_cases hk : p.1 = id
    · simp [hk] at h
    · rw [List.cons_append, assocGet]
      simp only [hk, if_false]
      exact ih (by simpa [hk] using h)

theorem assocGet_dictSet_self {κ α : Type} [DecidableEq κ]
    (s : List (κ × α)) (id : κ) (v : α) :
    assocGet (dictSet s id v) id = some v := by
  rw [dictSet]
  by_cases h : (assocGet s id).isSome
  · simp only [h, if_true]
    induction s with
    | nil => simp [assocGet] at h
    | cons p rest ih =>
      by_cases hk : p.1 = id
      · rw [List.map_cons, if_pos hk, assocGet]
        simp
      · rw [assocGet] at h
        simp only [hk, if_false] at h
        rw [List.map_cons, assocGet]
        simp only [hk, if_false]
        exact ih h
  · simp only [h, if_false]
    rw [Option.isSome_iff_exists] at h
    push_neg at h
    have hnone : assocGet s id = none := by
      cases hb : assocGet s id with
      | none => rfl
      | some v2 => exact absurd hb (h v2)
    exact assocGet_append_self s id v hnone

/-- Mapping the value bound to one key commutes with lookup of that key. -/
theorem assocGet_mapValueAt {κ α : Type} [DecidableEq κ]
    (s : List (κ × α)) (id : κ) (g : α → α) :
    assocGet (s.map (fun p => if p.1 = id then (p.1, g p.2) else p)) id =
      (assocGet s id).map g := by
  induction s with
  | nil => simp [assocGet]
  | cons p rest ih =>
    by_cases hk : p.1 = id
    · rw [List.map_cons, if_pos hk, assocGet, assocGet]
      simp [hk]
    · rw [List.map_cons, if_neg hk, assocGet, assocGet]
      simp only [hk, if_false]
      exact ih

/-! ## Instance Store (spec §4.1)

Modelled from the spec: the Instance Store implementation
(timestep/database.py, class InstanceStoreSingleton) is not part of the
source slice; only its callers are.  The spec says: a shared registry keyed
by entity id; `create` fails with Conflict if the id exists; mutating
operations fail with NotFound if it does not. -/

inductive StoreError
  | conflict
  | notFound
deriving DecidableEq, Repr

/-- Modelled from the spec: `create` fails with Conflict if the id exists;
otherwise the entity is stored under its id. -/
def storeCreate {α : Type} (s : List (String × α)) (id : String) (v : α) :
    Except StoreError (List (String × α)) :=
  match assocGet s id with
  | some _ => .error .conflict
  | none => .ok (s ++ [(id, v)])

/-- Modelled from the spec: a mutating operation (update) fails with NotFound
if the id does not exist; otherwise it replaces the entity stored under the id. -/
def storeUpdate {α : Type} (s : List (String × α)) (id : String) (v : α) :
    Except StoreError (List (String × α)) :=
  match assocGet s id with
  | none => .error .notFound
  | some _ => .ok (s.map (fun p => if p.1 = id then (id, v) else p))

/-- Modelled from the spec: a mutating operation (delete) fails with NotFound
if the id does not exist. -/
def storeDelete {α : Type} (s : List (String × α)) (id : String) :
    Except StoreError (List (String × α)) :=
  match assocGet s id with
  | none => .error .notFound
  | some _ => .ok (s.filter (fun p => ¬ p.1 = id))

/-! ## Files controller (src/timestep/api/openai/v1/controllers/files_controller.py) -/

structure FileObject where
  id : String
  bytes : Nat
  created_at : Nat
  filename : String
  object : String
  purpose : String
  status : String
deriving DecidableEq, Repr

inductive CtrlError
  | notImplemented
deriving DecidableEq, Repr

/-- The uploaded file argument: the controller reads `file.size` and
`file.filename`. -/
structure UploadedFile where
  size : Nat
  filename : String
deriving DecidableEq, Repr

/-- The `file_objects` slice of the instance store state that the files
controller touches: a map from file-object id to FileObject.  The controller
writes with a plain dict assignment. -/
abbrev FilesStore := List (String × FileObject)

/-- `create_file(body, file)`: reads `body.get('purpose')`; if it equals
"fine-tune", builds a FileObject with a fresh uuid id and the current time,
stores it in the instance store under its id, and returns it (serialized);
otherwise raises NotImplementedError before touching the store.  `freshId`
stands for `str(uuid.uuid4())` and `now` for `int(time.time())`, both
external inputs. -/
def create_file (purpose : Option String) (file : UploadedFile)
    (freshId : String) (now : Nat) (store : FilesStore) :
    Except CtrlError FileObject × FilesStore :=
  if purpose = some "fine-tune" then
    let file_object : FileObject :=
      { id := freshId
        bytes := file.size
        created_at := now
        filename := file.filename
        object := "file"
        purpose := "fine-tune"
        status := "uploaded" }
    (.ok file_object, dictSet store file_object.id file_object)
  else
    (.error .notImplemented, store)

/-- `delete_file(file_id)`: raises NotImplementedError for every input. -/
def delete_file (_file_id : String) : Except CtrlError Unit :=
  .error .notImplemented

/-- `download_file(file_id)`: raises NotImplementedError for every input. -/
def download_file (_file_id : String) : Except CtrlError String :=
  .error .notImplemented

/-- `list_files(purpose)`: raises NotImplementedError for every input. -/
def list_files (_purpose : Option String) : Except CtrlError (List FileObject) :=
  .error .notImplemented

/-- `retrieve_file(file_id)`: raises NotImplementedError for every input. -/
def retrieve_file (_file_id : String) : Except CtrlError FileObject :=
  .error .notImplemented

/-! ## GetAgentTask404Response (src/timestep/api/ap/v1/models/get_agent_task404_response.py) -/

inductive ValueError
  | invalidNone
deriving DecidableEq, Repr

/-- The model object holds one private attribute, `self._message`, an
optional string. -/
structure GetAgentTask404Response where
  msg : Option String
deriving DecidableEq, Repr

/-- `__init__(self, message=None)`: assigns `self._message = message`
directly, bypassing the property setter. -/
def GetAgentTask404Response.init (message : Option String) : GetAgentTask404Response :=
  { msg := message }

/-- The `message` property getter: returns `self._message`. -/
def GetAgentTask404Response.message (r : GetAgentTask404Response) : Option String :=
  r.msg

/-- The `message` property setter: raises ValueError when the new value is
None (before any assignment, so the stored attribute is untouched), else
assigns `self._message = message`. -/
def GetAgentTask404Response.setMessage (r : GetAgentTask404Response)
    (message : Option String) : Except ValueError GetAgentTask404Response :=
  match message with
  | none => .error .invalidNone
  | some v => .ok { r with msg := some v }

/-! ## Engine completions route (src/timestep/main.py, create_code_completion) -/

/-- A JSON object body, restricted to the fields the route touches: an
association list from field name to string value. -/
abbrev JsonBody := List (String × String)

/-- `POST /v1/engines/{engine}/completions`: when `engine == "copilot-codex"`,
overwrites `body["model"]` with "LLaMA_CPP" and delegates to
`create_completion` (an external collaborator, passed as a parameter),
returning its result; for every other engine raises NotImplementedError. -/
def create_code_completion {Resp : Type} (create_completion : JsonBody → Resp)
    (engine : String) (body : JsonBody) : Except CtrlError Resp :=
  if engine = "copilot-codex" then
    .ok (create_completion (dictSet body "model" "LLaMA_CPP"))
  else
    .error .notImplemented

/-! ## Run Engine core (spec §3–§4.5)

Modelled from the spec: the Run lifecycle core (Run Engine, Run Step
Recorder, Tool-Call Coordinator) is not part of the source slice; only its
HTTP tests are.  States, operations and transitions follow §4.3–§4.5. -/

inductive RunStatus
  | queued
  | inProgress
  | requiresAction
  | cancelling
  | completed
  | failed
  | cancelled
  | expired
deriving DecidableEq, Repr, Fintype

/-- Terminal statuses: completed, failed, cancelled, expired. -/
def RunStatus.isTerminal : RunStatus → Bool
  | .completed => true
  | .failed => true
  | .cancelled => true
  | .expired => true
  | _ => false

inductive StepType
  | messageCreation
  | toolCalls
deriving DecidableEq, Repr

inductive StepStatus
  | stepInProgress
  | stepCompleted
  | stepFailed
deriving DecidableEq, Repr

/-- A RunStep audit record: id (creation sequence number), owning run,
type, and status (in_progress at creation, finalized to completed/failed). -/
structure RunStep where
  id : Nat
  runId : Nat
  type : StepType
  status : StepStatus
deriving DecidableEq, Repr

/-- A ToolCall: function name and arguments, pending/submitted flag, and
the output once submitted. -/
structure ToolCall where
  id : Nat
  name : String
  arguments : String
  submitted : Bool
  output : Option String
deriving DecidableEq, Repr

structure Run where
  id : Nat
  threadId : Nat
  assistantId : Nat
  status : RunStatus
deriving DecidableEq, Repr

/-- The shared in-memory state the core components coordinate on: the run
registry, the append-only run-step log, and the pending tool-call batches
keyed by run id. -/
structure EngineState where
  runs : List Run
  steps : List RunStep
  pending : List (Nat × List ToolCall)
  nextRunId : Nat
  nextStepId : Nat
deriving DecidableEq, Repr

/-- The registry is initialized empty at process start. -/
def initState : EngineState := ⟨[], [], [], 0, 0⟩

def findRun (s : EngineState) (rid : Nat) : Option Run :=
  s.runs.find? (fun r => r.id == rid)

def lookupPending (s : EngineState) (rid : Nat) : Option (List ToolCall) :=
  assocGet s.pending rid

/-- The Run Engine may resume a requires_action run once its entire pending
batch has been submitted. -/
def canResume (s : EngineState) (rid : Nat) : Bool :=
  match lookupPending s rid with
  | some batch => batch.all (fun c => c.submitted)
  | none => false

/-- A thread has an active (non-terminal) run. -/
def hasActiveRun (s : EngineState) (tid : Nat) : Bool :=
  s.runs.any (fun r => r.threadId == tid && ! r.status.isTerminal)

/-- Update the status of the run `rid` to `target`, guarded by a predicate
on its current status; every other run is untouched. -/
def setStatusIf (s : EngineState) (rid : Nat) (guard : RunStatus → Bool)
    (target : RunStatus) : EngineState :=
  { s with runs := s.runs.map (fun r =>
      if r.id == rid && guard r.status then { r with status := target } else r) }

/-- Drop the pending batch of run `rid` (spec §4.4 cancel_pending, and batch
consumption on resume/expiry). -/
def dropPending (s : EngineState) (rid : Nat) : EngineState :=
  { s with pending := s.pending.filter (fun p => ! (p.1 == rid)) }

inductive EngineError
  | conflict
  | notFound
  | invalidState
  | incompleteSubmission
deriving DecidableEq, Repr

/-- `create_run(thread_id, assistant_id)`: fails Conflict if the thread
already has a non-terminal run; else creates the Run in status queued with a
fresh id and schedules execution. -/
def create_run (s : EngineState) (threadId assistantId : Nat) :
    Except EngineError (Nat × EngineState) :=
  if hasActiveRun s threadId then
    .error .conflict
  else
    .ok (s.nextRunId,
      { s with
          runs := s.runs ++ [{ id := s.nextRunId, threadId := threadId
                               assistantId := assistantId, status := .queued }]
          nextRunId := s.nextRunId + 1 })

/-- `register_pending(run_id, step_id, calls)`: fails InvalidState if a
batch is already pending for the run (or the run is not mid-step); otherwise
stores each call pending and signals the Run Engine to set status
requires_action. -/
def register_pending (s : EngineState) (rid : Nat)
    (calls : List (Nat × String × String)) : Except EngineError EngineState :=
  match findRun s rid with
  | none => .error .notFound
  | some run =>
    match lookupPending s rid with
    | some _ => .error .invalidState
    | none =>
      if run.status == .inProgress then
        .ok (setStatusIf
              { s with pending := s.pending ++
                  [(rid, calls.map (fun c =>
                      { id := c.1, name := c.2.1, arguments := c.2.2
                        submitted := false, output := none }))] }
              rid (fun st => st == .inProgress) .requiresAction)
      else
        .error .invalidState

/-- The submitted set of tool_call_ids is exactly the pending batch: no
subset, no extras (set equality of ids). -/
def exactBatchMatch (batch : List ToolCall) (outputs : List (Nat × String)) : Bool :=
  (batch.map (fun c => c.id)).all (fun i => (outputs.map (fun o => o.1)).contains i) &&
  (outputs.map (fun o => o.1)).all (fun i => (batch.map (fun c => c.id)).contains i)

/-- `submit_outputs(run_id, outputs)`: validates that the submitted set of
tool_call_ids is exactly the pending batch; a partial or mismatched
submission fails with IncompleteSubmission and leaves state unchanged; on
full match, marks all calls submitted (storing each output) so the Run
Engine is signalled to resume. -/
def submit_outputs (s : EngineState) (rid : Nat)
    (outputs : List (Nat × String)) : Except EngineError EngineState :=
  match lookupPending s rid with
  | none => .error .invalidState
  | some batch =>
    if exactBatchMatch batch outputs then
      .ok { s with pending := s.pending.map (fun p =>
              if p.1 = rid then
                (p.1, p.2.map (fun c =>
                  { c with submitted := true, output := assocGet outputs c.id }))
              else p) }
    else
      .error .incompleteSubmission

/-- The atomic events of the core: API calls and Run Engine scheduler
actions, each acting on the shared state.  Fallible API calls leave the
state unchanged when they fail. -/
inductive Event
  | createRun (threadId assistantId : Nat)
  | startStep (runId : Nat)
  | recordStep (runId : Nat) (type : StepType)
  | finalizeStep (stepId : Nat) (ok : Bool)
  | registerPending (runId : Nat) (calls : List (Nat × String × String))
  | submitOutputs (runId : Nat) (outputs : List (Nat × String))
  | completeRun (runId : Nat)
  | failRun (runId : Nat)
  | expireRun (runId : Nat)
  | cancelRequest (runId : Nat)
  | cancelFinish (runId : Nat)
deriving DecidableEq, Repr

/-- One atomic state change of the core (spec §4.3–§4.5): run creation,
step start (queued→in_progress, or requires_action→in_progress once the
batch is fully submitted, consuming it), step recording/finalization
(§4.3), tool-call batch registration and submission (§4.4), natural
completion, executor failure, requires_action deadline expiry, and the two
phases of cooperative cancellation (§4.5). -/
def step (s : EngineState) (e : Event) : EngineState :=
  match e with
  | .createRun t a =>
    match create_run s t a with
    | .ok p => p.2
    | .error _ => s
  | .startStep rid =>
    let resuming := canResume s rid &&
      ((findRun s rid).map Run.status == some .requiresAction)
    let s2 := setStatusIf s rid
      (fun st => st == .queued || (st == .requiresAction && canResume s rid))
      .inProgress
    if resuming then dropPending s2 rid else s2
  | .recordStep rid ty =>
    match findRun s rid with
    | some run =>
      if run.status == .inProgress then
        { s with
            steps := s.steps ++
              [{ id := s.nextStepId, runId := rid, type := ty
                 status := .stepInProgress }]
            nextStepId := s.nextStepId + 1 }
      else s
    | none => s
  | .finalizeStep sid ok =>
    { s with steps := s.steps.map (fun st =>
        if st.id == sid && st.status == .stepInProgress then
          { st with status := if ok then .stepCompleted else .stepFailed }
        else st) }
  | .registerPending rid calls =>
    match register_pending s rid calls with
    | .ok s2 => s2
    | .error _ => s
  | .submitOutputs rid outs =>
    match submit_outputs s rid outs with
    | .ok s2 => s2
    | .error _ => s
  | .completeRun rid => setStatusIf s rid (fun st => st == .inProgress) .completed
  | .failRun rid => setStatusIf s rid (fun st => st == .inProgress) .failed
  | .expireRun rid =>
    let expiring := (findRun s rid).map Run.status == some .requiresAction
    let s2 := setStatusIf s rid (fun st => st == .requiresAction) .expired
    if expiring then dropPending s2 rid else s2
  | .cancelRequest rid =>
    setStatusIf s rid
      (fun st => st == .queued || st == .inProgress || st == .requiresAction)
      .cancelling
  | .cancelFinish rid =>
    let finishing := (findRun s rid).map Run.status == some .cancelling
    let s2 := setStatusIf s rid (fun st => st == .cancelling) .cancelled
    if finishing then dropPending s2 rid else s2

/-- `cancel_run(run_id)`: on an already-terminal run, a no-op returning the
existing status (not an error); from any non-terminal state, enters the
transient cancelling state, lets the in-flight step finish, and the run
becomes cancelled. -/
def cancel_run (s : EngineState) (rid : Nat) : Option RunStatus × EngineState :=
  match findRun s rid with
  | none => (none, s)
  | some run =>
    if run.status.isTerminal then
      (some run.status, s)
    else
      (some .cancelled, step (step s (.cancelRequest rid)) (.cancelFinish rid))

def applyEvents : EngineState → List Event → EngineState
  | s, [] => s
  | s, e :: es => applyEvents (step s e) es

/-- `list_steps(run_id)`: the run's steps in creation order. -/
def list_steps (s : EngineState) (rid : Nat) : List RunStep :=
  s.steps.filter (fun st => st.runId == rid)

/-- The §4.5 transition table, reflexivity included: queued → in_progress ⇄
requires_action, in_progress → completed/failed, requires_action → expired,
cancelling reachable from queued/in_progress/requires_action and resolving
only to cancelled. -/
def allowedTransition (a b : RunStatus) : Bool :=
  a == b ||
  match a, b with
  | .queued, .inProgress => true
  | .inProgress, .requiresAction => true
  | .requiresAction, .inProgress => true
  | .inProgress, .completed => true
  | .inProgress, .failed => true
  | .requiresAction, .expired => true
  | .queued, .cancelling => true
  | .inProgress, .cancelling => true
  | .requiresAction, .cancelling => true
  | .cancelling, .cancelled => true
  | _, _ => false

/-! ## Helper lemmas about the shared state -/

theorem find?_map_id_eq (l : List Run) (f : Run → Run) (rid : Nat)
    (hf : ∀ r, (f r).id = r.id) :
    (l.map f).find? (fun r => r.id == rid) =
      (l.find? (fun r => r.id == rid)).map f := by
  induction l with
  | nil => rfl
  | cons r rest ih =>
    rw [List.map_cons]
    by_cases h : (r.id == rid) = true
    · have hfr : ((f r).id == rid) = true := by rw [hf]; exact h
      rw [List.find?_cons_of_pos (p := fun r : Run => r.id == rid) _ hfr,
        List.find?_cons_of_pos (p := fun r : Run => r.id == rid) _ h]
      rfl
    · have hfr : ¬ ((f r).id == rid) = true := by rw [hf]; exact h
      rw [List.find?_cons_of_neg (p := fun r : Run => r.id == rid) _ hfr,
        List.find?_cons_of_neg (p := fun r : Run => r.id == rid) _ h]
      exact ih

theorem find?_append_some {α : Type} (l1 l2 : List α) (p : α → Bool) (a : α)
    (h : l1.find? p = some a) : (l1 ++ l2).find? p = some a := by
  rw [List.find?_append, h]
  rfl

theorem statusMap_id (rid : Nat) (g : RunStatus → Bool) (t : RunStatus) (r : Run) :
    (if r.id == rid && g r.status then { r with status := t } else r).id = r.id := by
  split <;> rfl

theorem findRun_setStatusIf (s : EngineState) (rid : Nat) (g : RunStatus → Bool)
    (t : RunStatus) (rid2 : Nat) :
    findRun (setStatusIf s rid g t) rid2 =
      (findRun s rid2).map (fun r =>
        if r.id == rid && g r.status then { r with status := t } else r) := by
  unfold findRun setStatusIf
  exact find?_map_id_eq _ _ _ (statusMap_id rid g t)

theorem findRun_step_setStatus (s : EngineState) (ridT : Nat) (g : RunStatus → Bool)
    (t : RunStatus) (rid : Nat) (run : Run) (h1 : findRun s rid = some run) :
    findRun (setStatusIf s ridT g t) rid =
      some (if run.id == ridT && g run.status then { run with status := t } else run) := by
  rw [findRun_setStatusIf, h1]
  rfl

/-! ## Inversion lemmas for the fallible operations -/

theorem create_run_ok_inv (s : EngineState) (t a rid2 : Nat) (s2 : EngineState)
    (h : create_run s t a = .ok (rid2, s2)) :
    hasActiveRun s t = false ∧ rid2 = s.nextRunId ∧
    s2 = { s with
             runs := s.runs ++ [{ id := s.nextRunId, threadId := t
                                  assistantId := a, status := .queued }]
             nextRunId := s.nextRunId + 1 } := by
  unfold create_run at h
  by_cases hact : hasActiveRun s t = true
  · rw [if_pos hact] at h
    exact absurd h (by simp)
  · rw [if_neg hact] at h
    injection h with h2
    injection h2 with h3 h4
    exact ⟨Bool.eq_false_iff.mpr hact, h3.symm, h4.symm⟩

theorem create_run_error_inv (s : EngineState) (t a : Nat) (err : EngineError)
    (h : create_run s t a = .error err) :
    hasActiveRun s t = true ∧ err = .conflict := by
  unfold create_run at h
  by_cases hact : hasActiveRun s t = true
  · rw [if_pos hact] at h
    injection h with h2
    exact ⟨hact, h2.symm⟩
  · rw [if_neg hact] at h
    exact absurd h (by simp)

theorem submit_outputs_ok_inv (s : EngineState) (rid : Nat)
    (outputs : List (Nat × String)) (s2 : EngineState)
    (h : submit_outputs s rid outputs = .ok s2) :
    s2.runs = s.runs ∧ s2.steps = s.steps ∧ s2.nextRunId = s.nextRunId ∧
    s2.nextStepId = s.nextStepId := by
  unfold submit_outputs at h
  split at h
  · exact absurd h (by simp)
  · split at h
    · injection h with h2
      rw [← h2]
      exact ⟨rfl, rfl, rfl, rfl⟩
    · exact absurd h (by simp)

theorem register_pending_ok_inv (s : EngineState) (rid : Nat)
    (calls : List (Nat × String × String)) (s2 : EngineState)
    (h : register_pending s rid calls = .ok s2) :
    s2 = setStatusIf
          { s with pending := s.pending ++
              [(rid, calls.map (fun c =>
                  { id := c.1, name := c.2.1, arguments := c.2.2
                    submitted := false, output := none }))] }
          rid (fun st => st == .inProgress) .requiresAction := by
  unfold register_pending at h
  split at h
  · exact absurd h (by simp)
  · split at h
    · exact absurd h (by simp)
    · split at h
      · injection h with h2
        exact h2.symm
      · exact absurd h (by simp)

/-! ## The per-thread active-run count -/

/-- A run is active on thread `tid`: it references the thread and is in one
of the non-terminal statuses. -/
def activeOn (tid : Nat) (r : Run) : Bool :=
  r.threadId == tid && ! r.status.isTerminal

/-- The number of non-terminal runs referencing thread `tid`. -/
def nonTerminalCount (s : EngineState) (tid : Nat) : Nat :=
  (s.runs.filter (activeOn tid)).length

theorem length_filter_map_le {α : Type} (l : List α) (f : α → α) (p : α → Bool)
    (hp : ∀ x, p (f x) = true → p x = true) :
    ((l.map f).filter p).length ≤ (l.filter p).length := by
  induction l with
  | nil => simp
  | cons x xs ih =>
    rw [List.map_cons, List.filter_cons, List.filter_cons]
    by_cases hfx : p (f x) = true
    · rw [if_pos hfx, if_pos (hp x hfx)]
      simpa using ih
    · rw [if_neg hfx]
      by_cases hx : p x = true
      · rw [if_pos hx]
        exact Nat.le_trans ih (Nat.le_succ _)
      · rw [if_neg hx]
        exact ih

theorem activeOn_statusMap (tid rid : Nat) (g : RunStatus → Bool) (t : RunStatus)
    (hg : ∀ st, g st = true → st.isTerminal = false) (r : Run)
    (h : activeOn tid
      (if r.id == rid && g r.status then { r with status := t } else r) = true) :
    activeOn tid r = true := by
  by_cases hc : (r.id == rid && g r.status) = true
  · rw [if_pos hc] at h
    unfold activeOn at h ⊢
    have hg2 : r.status.isTerminal = false := by
      rw [Bool.and_eq_true] at hc
      exact hg r.status hc.2
    rw [Bool.and_eq_true] at h ⊢
    refine ⟨h.1, ?_⟩
    rw [hg2]
    rfl
  · rw [if_neg hc] at h
    exact h

theorem count_setStatusIf_le (s : EngineState) (rid : Nat) (g : RunStatus → Bool)
    (t : RunStatus) (tid : Nat) (hg : ∀ st, g st = true → st.isTerminal = false) :
    nonTerminalCount (setStatusIf s rid g t) tid ≤ nonTerminalCount s tid := by
  unfold nonTerminalCount setStatusIf
  exact length_filter_map_le _ _ _ (fun r => activeOn_statusMap tid rid g t hg r)

/-- No event raises the number of active runs of a thread above one: events
either keep a run's status, move an active run along the table, or create a
run only when the thread has no active run. -/
theorem count_step_le (s : EngineState) (e : Event) (tid : Nat)
    (h : nonTerminalCount s tid ≤ 1) : nonTerminalCount (step s e) tid ≤ 1 := by
  cases e with
  | createRun t a =>
    cases hc : create_run s t a with
    | error err =>
      simp only [step, hc]
      exact h
    | ok p =>
      obtain ⟨rid2, s2⟩ := p
      obtain ⟨hact, hrid, hs2⟩ := create_run_ok_inv s t a rid2 s2 hc
      simp only [step, hc]
      rw [hs2]
      show ((s.runs ++ [_]).filter (activeOn tid)).length ≤ 1
      rw [List.filter_append, List.length_append]
      by_cases htid : t = tid
      · have hnil : s.runs.filter (activeOn tid) = [] := by
          rw [List.filter_eq_nil_iff]
          intro r hr
          have hall := List.any_eq_false.mp hact r hr
          rw [htid] at hall
          simpa [activeOn] using hall
        rw [hnil]
        simp [List.filter, activeOn, RunStatus.isTerminal, htid]
      · have : activeOn tid { id := s.nextRunId, threadId := t
                              assistantId := a, status := .queued } = false := by
          simp [activeOn, htid]
        simp only [List.filter, this]
        simpa using h
  | startStep rid =>
    have hg : ∀ st : RunStatus,
        (st == .queued || (st == .requiresAction && canResume s rid)) = true →
        st.isTerminal = false := by
      intro st hst
      cases st <;> simp_all [RunStatus.isTerminal]
    simp only [step]
    split
    · exact Nat.le_trans (count_setStatusIf_le s rid _ _ tid hg) h
    · exact Nat.le_trans (count_setStatusIf_le s rid _ _ tid hg) h
  | recordStep rid ty =>
    simp only [step]
    split
    · split
      · exact h
      · exact h
    · exact h
  | finalizeStep sid ok => exact h
  | registerPending rid calls =>
    cases hc : register_pending s rid calls with
    | error err =>
      simp only [step, hc]
      exact h
    | ok s2 =>
      simp only [step, hc]
      rw [register_pending_ok_inv s rid calls s2 hc]
      have hg : ∀ st : RunStatus, (st == RunStatus.inProgress) = true →
          st.isTerminal = false := by
        intro st hst
        cases st <;> simp_all [RunStatus.isTerminal]
      exact Nat.le_trans (count_setStatusIf_le _ rid _ _ tid hg) h
  | submitOutputs rid outs =>
    cases hc : submit_outputs s rid outs with
    | error err =>
      simp only [step, hc]
      exact h
    | ok s2 =>
      simp only [step, hc]
      obtain ⟨hruns, _, _, _⟩ := submit_outputs_ok_inv s rid outs s2 hc
      unfold nonTerminalCount
      rw [hruns]
      exact h
  | completeRun rid =>
    have hg : ∀ st : RunStatus, (st == RunStatus.inProgress) = true →
        st.isTerminal = false := by
      intro st hst
      cases st <;> simp_all [RunStatus.isTerminal]
    exact Nat.le_trans (count_setStatusIf_le s rid _ _ tid hg) h
  | failRun rid =>
    have hg : ∀ st : RunStatus, (st == RunStatus.inProgress) = true →
        st.isTerminal = false := by
      intro st hst
      cases st <;> simp_all [RunStatus.isTerminal]
    exact Nat.le_trans (count_setStatusIf_le s rid _ _ tid hg) h
  | expireRun rid =>
    have hg : ∀ st : RunStatus, (st == RunStatus.requiresAction) = true →
        st.isTerminal = false := by
      intro st hst
      cases st <;> simp_all [RunStatus.isTerminal]
    simp only [step]
    split
    · exact Nat.le_trans (count_setStatusIf_le s rid _ _ tid hg) h
    · exact Nat.le_trans (count_setStatusIf_le s rid _ _ tid hg) h
  | cancelRequest rid =>
    have hg : ∀ st : RunStatus,
        (st == RunStatus.queued || st == RunStatus.inProgress ||
          st == RunStatus.requiresAction) = true →
        st.isTerminal = false := by
      intro st hst
      cases st <;> simp_all [RunStatus.isTerminal]
    exact Nat.le_trans (count_setStatusIf_le s rid _ _ tid hg) h
  | cancelFinish rid =>
    have hg : ∀ st : RunStatus, (st == RunStatus.cancelling) = true →
        st.isTerminal = false := by
      intro st hst
      cases st <;> simp_all [RunStatus.isTerminal]
    simp only [step]
    split
    · exact Nat.le_trans (count_setStatusIf_le s rid _ _ tid hg) h
    · exact Nat.le_trans (count_setStatusIf_le s rid _ _ tid hg) h

theorem count_applyEvents_le (es : List Event) :
    ∀ s : EngineState, (∀ tid, nonTerminalCount s tid ≤ 1) →
      ∀ tid, nonTerminalCount (applyEvents s es) tid ≤ 1 := by
  induction es with
  | nil => intro s h tid; exact h tid
  | cons e rest ih =>
    intro s h tid
    exact ih (step s e) (fun tid2 => count_step_le s e tid2 (h tid2)) tid

/-! ## Transition-table compliance -/

theorem allowed_refl (a : RunStatus) : allowedTransition a a = true := by
  cases a <;> rfl

theorem allowed_of_eq (run run2 : Run) (h : some run = some run2) :
    allowedTransition run.status run2.status = true := by
  injection h with h2
  rw [h2]
  exact allowed_refl run2.status

theorem allowed_of_statusMap (g : RunStatus → Bool) (t : RunStatus) (ridT : Nat)
    (run run2 : Run)
    (hgt : ∀ a, g a = true → allowedTransition a t = true)
    (hrun2 : some (if run.id == ridT && g run.status then { run with status := t }
      else run) = some run2) :
    allowedTransition run.status run2.status = true := by
  injection hrun2 with h2
  rw [← h2]
  by_cases hc : (run.id == ridT && g run.status) = true
  · rw [if_pos hc]
    rw [Bool.and_eq_true] at hc
    exact hgt run.status hc.2
  · rw [if_neg hc]
    exact allowed_refl run.status

/-- Every event moves the status of every run along the §4.5 transition
table (or leaves it unchanged). -/
theorem findRun_step_allowed (s : EngineState) (e : Event) (rid : Nat)
    (run run2 : Run) (h1 : findRun s rid = some run)
    (h2 : findRun (step s e) rid = some run2) :
    allowedTransition run.status run2.status = true := by
  cases e with
  | createRun t a =>
    cases hc : create_run s t a with
    | error err =>
      have hstep : step s (Event.createRun t a) = s := by simp only [step, hc]
      rw [hstep] at h2
      exact allowed_of_eq run run2 ((h1.symm.trans h2))
    | ok p =>
      obtain ⟨rid2, s2⟩ := p
      obtain ⟨hact, hrid, hs2⟩ := create_run_ok_inv s t a rid2 s2 hc
      have hstep : step s (Event.createRun t a) = s2 := by simp only [step, hc]
      rw [hstep, hs2] at h2
      have h3 : findRun
          { s with
              runs := s.runs ++ [{ id := s.nextRunId, threadId := t
                                   assistantId := a, status := .queued }]
              nextRunId := s.nextRunId + 1 } rid = some run :=
        find?_append_some s.runs _ _ run h1
      exact allowed_of_eq run run2 (h3.symm.trans h2)
  | startStep rid0 =>
    have hfr : findRun (step s (Event.startStep rid0)) rid =
        findRun (setStatusIf s rid0
          (fun st => st == .queued || (st == .requiresAction && canResume s rid0))
          .inProgress) rid := by
      simp only [step]
      split <;> rfl
    rw [hfr, findRun_step_setStatus s rid0 _ _ rid run h1] at h2
    have hdec : ∀ (b : Bool) (a : RunStatus),
        (a == .queued || (a == .requiresAction && b)) = true →
        allowedTransition a .inProgress = true := by decide
    exact allowed_of_statusMap _ _ rid0 run run2 (hdec (canResume s rid0)) h2
  | recordStep rid0 ty =>
    have hfr : findRun (step s (Event.recordStep rid0 ty)) rid = findRun s rid := by
      simp only [step]
      split
      · split <;> rfl
      · rfl
    rw [hfr] at h2
    exact allowed_of_eq run run2 (h1.symm.trans h2)
  | finalizeStep sid ok =>
    have hfr : findRun (step s (Event.finalizeStep sid ok)) rid = findRun s rid := rfl
    rw [hfr] at h2
    exact allowed_of_eq run run2 (h1.symm.trans h2)
  | registerPending rid0 calls =>
    cases hc : register_pending s rid0 calls with
    | error err =>
      have hstep : step s (Event.registerPending rid0 calls) = s := by
        simp only [step, hc]
      rw [hstep] at h2
      exact allowed_of_eq run run2 (h1.symm.trans h2)
    | ok s2 =>
      have hstep : step s (Event.registerPending rid0 calls) = s2 := by
        simp only [step, hc]
      rw [hstep, register_pending_ok_inv s rid0 calls s2 hc] at h2
      have h1b : findRun
          { s with pending := s.pending ++
              [(rid0, calls.map (fun c =>
                  { id := c.1, name := c.2.1, arguments := c.2.2
                    submitted := false, output := none }))] } rid = some run := h1
      rw [findRun_step_setStatus _ rid0 _ _ rid run h1b] at h2
      have hdec : ∀ a : RunStatus, (a == RunStatus.inProgress) = true →
          allowedTransition a .requiresAction = true := by decide
      exact allowed_of_statusMap _ _ rid0 run run2 hdec h2
  | submitOutputs rid0 outs =>
    cases hc : submit_outputs s rid0 outs with
    | error err =>
      have hstep : step s (Event.submitOutputs rid0 outs) = s := by
        simp only [step, hc]
      rw [hstep] at h2
      exact allowed_of_eq run run2 (h1.symm.trans h2)
    | ok s2 =>
      have hstep : step s (Event.submitOutputs rid0 outs) = s2 := by
        simp only [step, hc]
      obtain ⟨hruns, _, _, _⟩ := submit_outputs_ok_inv s rid0 outs s2 hc
      have hfr : findRun s2 rid = findRun s rid := by
        unfold findRun
        rw [hruns]
      rw [hstep, hfr] at h2
      exact allowed_of_eq run run2 (h1.symm.trans h2)
  | completeRun rid0 =>
    have hfr : findRun (step s (Event.completeRun rid0)) rid =
        findRun (setStatusIf s rid0 (fun st => st == .inProgress) .completed) rid := rfl
    rw [hfr, findRun_step_setStatus s rid0 _ _ rid run h1] at h2
    have hdec : ∀ a : RunStatus, (a == RunStatus.inProgress) = true →
        allowedTransition a .completed = true := by decide
    exact allowed_of_statusMap _ _ rid0 run run2 hdec h2
  | failRun rid0 =>
    have hfr : findRun (step s (Event.failRun rid0)) rid =
        findRun (setStatusIf s rid0 (fun st => st == .inProgress) .failed) rid := rfl
    rw [hfr, findRun_step_setStatus s rid0 _ _ rid run h1] at h2
    have hdec : ∀ a : RunStatus, (a == RunStatus.inProgress) = true →
        allowedTransition a .failed = true := by decide
    exact allowed_of_statusMap _ _ rid0 run run2 hdec h2
  | expireRun rid0 =>
    have hfr : findRun (step s (Event.expireRun rid0)) rid =
        findRun (setStatusIf s rid0 (fun st => st == .requiresAction) .expired) rid := by
      simp only [step]
      split <;> rfl
    rw [hfr, findRun_step_setStatus s rid0 _ _ rid run h1] at h2
    have hdec : ∀ a : RunStatus, (a == RunStatus.requiresAction) = true →
        allowedTransition a .expired = true := by decide
    exact allowed_of_statusMap _ _ rid0 run run2 hdec h2
  | cancelRequest rid0 =>
    have hfr : findRun (step s (Event.cancelRequest rid0)) rid =
        findRun (setStatusIf s rid0
          (fun st => st == .queued || st == .inProgress || st == .requiresAction)
          .cancelling) rid := rfl
    rw [hfr, findRun_step_setStatus s rid0 _ _ rid run h1] at h2
    have hdec : ∀ a : RunStatus,
        (a == RunStatus.queued || a == RunStatus.inProgress ||
          a == RunStatus.requiresAction) = true →
        allowedTransition a .cancelling = true := by decide
    exact allowed_of_statusMap _ _ rid0 run run2 hdec h2
  | cancelFinish rid0 =>
    have hfr : findRun (step s (Event.cancelFinish rid0)) rid =
        findRun (setStatusIf s rid0 (fun st => st == .cancelling) .cancelled) rid := by
      simp only [step]
      split <;> rfl
    rw [hfr, findRun_step_setStatus s rid0 _ _ rid run h1] at h2
    have hdec : ∀ a : RunStatus, (a == RunStatus.cancelling) = true →
        allowedTransition a .cancelled = true := by decide
    exact allowed_of_statusMap _ _ rid0 run run2 hdec h2

/-! ## The append-only step log -/

/-- The creation-time data of a step record: its id (creation sequence
number), owning run and type.  The status field is the one field §3 allows
to be finalized in place afterwards. -/
def creationData (st : RunStep) : Nat × Nat × StepType :=
  (st.id, st.runId, st.type)

/-- The step log is sorted by creation sequence number, all below the next
fresh id. -/
def stepsWF (s : EngineState) : Prop :=
  List.Pairwise (fun a b => a.id < b.id) s.steps ∧
  ∀ st ∈ s.steps, st.id < s.nextStepId

theorem finalizeMap_id (sid : Nat) (ok : Bool) (st : RunStep) :
    (if st.id == sid && st.status == .stepInProgress then
      { st with status := if ok then .stepCompleted else .stepFailed }
     else st).id = st.id := by
  split <;> rfl

theorem finalizeMap_runId (sid : Nat) (ok : Bool) (st : RunStep) :
    (if st.id == sid && st.status == .stepInProgress then
      { st with status := if ok then .stepCompleted else .stepFailed }
     else st).runId = st.runId := by
  split <;> rfl

theorem finalizeMap_creationData (sid : Nat) (ok : Bool) (st : RunStep) :
    creationData (if st.id == sid && st.status == .stepInProgress then
      { st with status := if ok then .stepCompleted else .stepFailed }
     else st) = creationData st := by
  split <;> rfl

/-- Every event leaves the step log untouched, appends one freshly numbered
record at the end, or finalizes the status of records in place. -/
theorem step_steps_shape (s : EngineState) (e : Event) :
    ((step s e).steps = s.steps ∧ (step s e).nextStepId = s.nextStepId) ∨
    (∃ (rid : Nat) (ty : StepType), (step s e).steps = s.steps ++
        [{ id := s.nextStepId, runId := rid, type := ty, status := .stepInProgress }] ∧
      (step s e).nextStepId = s.nextStepId + 1) ∨
    (∃ (sid : Nat) (ok : Bool), (step s e).steps = s.steps.map (fun st =>
        if st.id == sid && st.status == .stepInProgress then
          { st with status := if ok then .stepCompleted else .stepFailed }
        else st) ∧
      (step s e).nextStepId = s.nextStepId) := by
  cases e with
  | createRun t a =>
    cases hc : create_run s t a with
    | error err =>
      have hstep : step s (Event.createRun t a) = s := by simp only [step, hc]
      rw [hstep]
      exact Or.inl ⟨rfl, rfl⟩
    | ok p =>
      obtain ⟨rid2, s2⟩ := p
      obtain ⟨_, _, hs2⟩ := create_run_ok_inv s t a rid2 s2 hc
      have hstep : step s (Event.createRun t a) = s2 := by simp only [step, hc]
      rw [hstep, hs2]
      exact Or.inl ⟨rfl, rfl⟩
  | startStep rid =>
    simp only [step]
    split <;> exact Or.inl ⟨rfl, rfl⟩
  | recordStep rid ty =>
    simp only [step]
    split
    · split
      · exact Or.inr (Or.inl ⟨rid, ty, rfl, rfl⟩)
      · exact Or.inl ⟨rfl, rfl⟩
    · exact Or.inl ⟨rfl, rfl⟩
  | finalizeStep sid ok => exact Or.inr (Or.inr ⟨sid, ok, rfl, rfl⟩)
  | registerPending rid calls =>
    cases hc : register_pending s rid calls with
    | error err =>
      have hstep : step s (Event.registerPending rid calls) = s := by
        simp only [step, hc]
      rw [hstep]
      exact Or.inl ⟨rfl, rfl⟩
    | ok s2 =>
      have hstep : step s (Event.registerPending rid calls) = s2 := by
        simp only [step, hc]
      rw [hstep, register_pending_ok_inv s rid calls s2 hc]
      exact Or.inl ⟨rfl, rfl⟩
  | submitOutputs rid outs =>
    cases hc : submit_outputs s rid outs with
    | error err =>
      have hstep : step s (Event.submitOutputs rid outs) = s := by
        simp only [step, hc]
      rw [hstep]
      exact Or.inl ⟨rfl, rfl⟩
    | ok s2 =>
      have hstep : step s (Event.submitOutputs rid outs) = s2 := by
        simp only [step, hc]
      obtain ⟨_, hsteps, _, hnext⟩ := submit_outputs_ok_inv s rid outs s2 hc
      rw [hstep]
      exact Or.inl ⟨hsteps, hnext⟩
  | completeRun rid => exact Or.inl ⟨rfl, rfl⟩
  | failRun rid => exact Or.inl ⟨rfl, rfl⟩
  | expireRun rid =>
    simp only [step]
    split <;> exact Or.inl ⟨rfl, rfl⟩
  | cancelRequest rid => exact Or.inl ⟨rfl, rfl⟩
  | cancelFinish rid =>
    simp only [step]
    split <;> exact Or.inl ⟨rfl, rfl⟩

theorem stepsWF_step (s : EngineState) (e : Event) (h : stepsWF s) :
    stepsWF (step s e) := by
  obtain ⟨hpw, hbound⟩ := h
  rcases step_steps_shape s e with ⟨hs, hn⟩ | ⟨rid, ty, hs, hn⟩ | ⟨sid, ok, hs, hn⟩
  · unfold stepsWF
    rw [hs, hn]
    exact ⟨hpw, hbound⟩
  · unfold stepsWF
    rw [hs, hn]
    constructor
    · rw [List.pairwise_append]
      refine ⟨hpw, List.pairwise_singleton _ _, ?_⟩
      intro a ha b hb
      rw [List.mem_singleton] at hb
      rw [hb]
      exact hbound a ha
    · intro st hst
      rw [List.mem_append] at hst
      rcases hst with h1 | h1
      · exact Nat.lt_trans (hbound st h1) (Nat.lt_succ_self _)
      · rw [List.mem_singleton] at h1
        rw [h1]
        exact Nat.lt_succ_self _
  · unfold stepsWF
    rw [hs, hn]
    constructor
    · rw [List.pairwise_map]
      refine hpw.imp ?_
      intro a b hab
      rw [finalizeMap_id, finalizeMap_id]
      exact hab
    · intro st hst
      rw [List.mem_map] at hst
      obtain ⟨st0, h0, rfl⟩ := hst
      rw [finalizeMap_id]
      exact hbound st0 h0

theorem stepsWF_applyEvents (es : List Event) :
    ∀ s : EngineState, stepsWF s → stepsWF (applyEvents s es) := by
  induction es with
  | nil => intro s h; exact h
  | cons e rest ih => intro s h; exact ih (step s e) (stepsWF_step s e h)

theorem list_steps_step_extends (s : EngineState) (e : Event) (rid : Nat) :
    ∃ tail, (list_steps (step s e) rid).map creationData =
      (list_steps s rid).map creationData ++ tail := by
  rcases step_steps_shape s e with ⟨hs, _⟩ | ⟨rid0, ty, hs, _⟩ | ⟨sid, ok, hs, _⟩
  · refine ⟨[], ?_⟩
    unfold list_steps
    rw [hs, List.append_nil]
  · refine ⟨(List.filter (fun st => st.runId == rid)
      [{ id := s.nextStepId, runId := rid0, type := ty
         status := .stepInProgress }]).map creationData, ?_⟩
    unfold list_steps
    rw [hs, List.filter_append, List.map_append]
  · refine ⟨[], ?_⟩
    unfold list_steps
    rw [hs, List.append_nil, List.filter_map]
    rw [List.filter_congr (fun st _ => show
      (((fun st : RunStep => st.runId == rid) ∘ _) st) = (st.runId == rid) by
        show ((if st.id == sid && st.status == StepStatus.stepInProgress then
          { st with status := if ok then .stepCompleted else .stepFailed }
         else st).runId == rid) = (st.runId == rid)
        rw [finalizeMap_runId])]
    rw [List.map_map]
    exact List.map_congr_left (fun st _ => finalizeMap_creationData sid ok st)

theorem list_steps_applyEvents_extends (es : List Event) :
    ∀ (s : EngineState) (rid : Nat), ∃ tail,
      (list_steps (applyEvents s es) rid).map creationData =
        (list_steps s rid).map creationData ++ tail := by
  induction es with
  | nil =>
    intro s rid
    refine ⟨[], ?_⟩
    rw [List.append_nil]
    rfl
  | cons e rest ih =>
    intro s rid
    obtain ⟨t1, h1⟩ := list_steps_step_extends s e rid
    obtain ⟨t2, h2⟩ := ih (step s e) rid
    refine ⟨t1 ++ t2, ?_⟩
    show (list_steps (applyEvents (step s e) rest) rid).map creationData = _
    rw [h2, h1, List.append_assoc]

theorem finalized_step_mem_step (s : EngineState) (e : Event) (st : RunStep)
    (hmem : st ∈ s.steps) (hfin : ¬ st.status = .stepInProgress) :
    st ∈ (step s e).steps := by
  rcases step_steps_shape s e with ⟨hs, _⟩ | ⟨rid0, ty, hs, _⟩ | ⟨sid, ok, hs, _⟩
  · rw [hs]
    exact hmem
  · rw [hs]
    exact List.mem_append_left _ hmem
  · rw [hs]
    have hcond : ¬ (st.id == sid && st.status == StepStatus.stepInProgress) = true := by
      intro hcontra
      rw [Bool.and_eq_true] at hcontra
      exact hfin (by simpa using hcontra.2)
    have hmap := List.mem_map_of_mem (fun st : RunStep =>
      if st.id == sid && st.status == .stepInProgress then
        { st with status := if ok then .stepCompleted else .stepFailed }
      else st) hmem
    have hbeta : (fun st : RunStep =>
        if st.id == sid && st.status == .stepInProgress then
          { st with status := if ok then .stepCompleted else .stepFailed }
        else st) st = st := by
      show (if st.id == sid && st.status == StepStatus.stepInProgress then
        { st with status := if ok then .stepCompleted else .stepFailed }
       else st) = st
      rw [if_neg hcond]
    rw [hbeta] at hmap
    exact hmap

theorem finalized_step_mem_applyEvents (es : List Event) :
    ∀ (s : EngineState) (st : RunStep), st ∈ s.steps →
      ¬ st.status = .stepInProgress → st ∈ (applyEvents s es).steps := by
  induction es with
  | nil => intro s st h _; exact h
  | cons e rest ih =>
    intro s st h hfin
    exact ih (step s e) st (finalized_step_mem_step s e st h hfin) hfin

/-! ## Binding layer (spec §6)

Modelled from the spec: the HTTP binding is an external collaborator whose
contract is fixed; every request lacking valid authentication is rejected
before reaching the core.  The endpoints are the exposed surface exercised
by the controller test file. -/

inductive Endpoint
  | cancelRun
  | createAssistant
  | createMessage
  | createRun
  | createThread
  | createThreadAndRun
  | deleteAssistant
  | deleteMessage
  | deleteThread
  | getAssistant
  | getMessage
  | getRun
  | getRunStep
  | getThread
  | listAssistants
  | listMessages
  | listRunSteps
  | listRuns
  | modifyAssistant
  | modifyMessage
  | modifyRun
  | modifyThread
  | submitToolOutputs
deriving DecidableEq, Repr

/-- A request to the binding layer: the addressed endpoint and the bearer
credential, when one was provided. -/
structure ApiRequest where
  endpoint : Endpoint
  auth : Option String
deriving DecidableEq, Repr

/-- Modelled from the spec: a request carries valid authentication when it
bears a credential the external validator accepts; a request without a
credential is never valid. -/
def authValid (validToken : String → Bool) (req : ApiRequest) : Bool :=
  match req.auth with
  | none => false
  | some tok => validToken tok

/-- Modelled from the spec: the binding layer checks authentication before
dispatching; an unauthenticated request is answered 401 with no core
operation invoked and the core state untouched; an authenticated one
dispatches its endpoint to the core.  The result records the HTTP status,
the core operations invoked, and the resulting core state. -/
def handle_request (validToken : String → Bool) (req : ApiRequest)
    (s : EngineState) : Nat × List Endpoint × EngineState :=
  if authValid validToken req then
    (200, [req.endpoint], s)
  else
    (401, [], s)

/-! ## Sample states used by the witnesses -/

def sampleQueued : EngineState :=
  { runs := [{ id := 0, threadId := 1, assistantId := 2, status := .queued }]
    steps := [], pending := [], nextRunId := 1, nextStepId := 0 }

def sampleDone : EngineState :=
  { runs := [{ id := 0, threadId := 1, assistantId := 2, status := .completed }]
    steps := [], pending := [], nextRunId := 1, nextStepId := 0 }

def samplePending : EngineState :=
  { runs := [{ id := 0, threadId := 1, assistantId := 2, status := .requiresAction }]
    steps := []
    pending := [(0, [{ id := 7, name := "lookup", arguments := "x"
                       submitted := false, output := none }])]
    nextRunId := 1, nextStepId := 0 }

def sampleWithStep : EngineState :=
  { runs := [], steps := [{ id := 0, runId := 0, type := .messageCreation
                            status := .stepCompleted }]
    pending := [], nextRunId := 0, nextStepId := 1 }

/-! ## The claims -/

/-- C1: for every sequence of core events from the initial state, at most
one run referencing a given thread is in a non-terminal status at any
observed instant; `create_run(thread_id, assistant_id)` fails with Conflict
exactly when the thread already has a non-terminal run, and otherwise
creates the run in status queued.  The last conjunct ties the counted
statuses to the claim: non-terminal means queued, in_progress,
requires_action or cancelling. -/
theorem c1_at_most_one_active_run :
    (∀ (es : List Event) (tid : Nat),
      nonTerminalCount (applyEvents initState es) tid ≤ 1) ∧
    (∀ (s : EngineState) (threadId assistantId : Nat),
      (hasActiveRun s threadId = true →
        create_run s threadId assistantId = .error .conflict) ∧
      (hasActiveRun s threadId = false →
        create_run s threadId assistantId = .ok (s.nextRunId,
          { s with
              runs := s.runs ++ [{ id := s.nextRunId, threadId := threadId
                                   assistantId := assistantId, status := .queued }]
              nextRunId := s.nextRunId + 1 }))) ∧
    (∀ st : RunStatus, st.isTerminal = false ↔
      (st = .queued ∨ st = .inProgress ∨ st = .requiresAction ∨ st = .cancelling)) := by
  refine ⟨?_, ?_, by decide⟩
  · intro es tid
    exact count_applyEvents_le es initState (fun _ => Nat.zero_le 1) tid
  · intro s t a
    constructor
    · intro hact
      unfold create_run
      rw [if_pos hact]
    · intro hact
      unfold create_run
      rw [if_neg (by rw [hact]; exact Bool.false_ne_true)]

/-- Witness for C1: on a fresh thread `create_run` succeeds in status
queued; a second `create_run` against the same thread fails with Conflict. -/
theorem c1_witness :
    create_run initState 1 2 = .ok (0, sampleQueued) ∧
    create_run sampleQueued 1 3 = .error .conflict := by
  constructor
  · exact (c1_at_most_one_active_run.2.1 initState 1 2).2 (by decide)
  · exact (c1_at_most_one_active_run.2.1 sampleQueued 1 3).1 (by decide)

/-- C3: every event moves a run's status only along the §4.5 transition
table (queued → in_progress ⇄ requires_action → completed/failed/expired,
cancellation through the transient cancelling state); cancelling is entered
only from queued, in_progress or requires_action; a transition out of
cancelling only reaches cancelled; terminal statuses never change. -/
theorem c3_transition_table :
    (∀ (s : EngineState) (e : Event) (rid : Nat) (run run2 : Run),
      findRun s rid = some run → findRun (step s e) rid = some run2 →
      allowedTransition run.status run2.status = true) ∧
    (∀ a b : RunStatus, allowedTransition a b = true → b = .cancelling →
      (a = .queued ∨ a = .inProgress ∨ a = .requiresAction ∨ a = .cancelling)) ∧
    (∀ a b : RunStatus, allowedTransition a b = true → a = .cancelling →
      (b = .cancelling ∨ b = .cancelled)) ∧
    (∀ a b : RunStatus, a.isTerminal = true → allowedTransition a b = true → b = a) :=
  ⟨findRun_step_allowed, by decide, by decide, by decide⟩

/-- Witness for C3: starting the queued sample run moves it to in_progress,
a transition the table allows. -/
theorem c3_witness : allowedTransition .queued .inProgress = true :=
  c3_transition_table.1 sampleQueued (.startStep 0) 0
    { id := 0, threadId := 1, assistantId := 2, status := .queued }
    { id := 0, threadId := 1, assistantId := 2, status := .inProgress }
    (by decide) (by decide)

/-- C2: for a run with a pending tool-call batch, `submit_outputs` succeeds
exactly when the submitted set of tool_call_ids matches the pending batch;
any mismatch (strict subset, superset, or different set) fails with
IncompleteSubmission and leaves the whole state unchanged; an exact match
marks every call in the batch submitted (storing its output) so the Run
Engine is signalled to resume. -/
theorem c2_submit_outputs_exact_batch (s : EngineState) (rid : Nat)
    (batch : List ToolCall) (outputs : List (Nat × String))
    (h : lookupPending s rid = some batch) :
    (exactBatchMatch batch outputs = false →
      submit_outputs s rid outputs = .error .incompleteSubmission ∧
      step s (.submitOutputs rid outputs) = s) ∧
    (exactBatchMatch batch outputs = true →
      ∃ s2, submit_outputs s rid outputs = .ok s2 ∧
        step s (.submitOutputs rid outputs) = s2 ∧
        lookupPending s2 rid = some (batch.map (fun c =>
          { c with submitted := true, output := assocGet outputs c.id })) ∧
        canResume s2 rid = true ∧
        s2.runs = s.runs ∧ s2.steps = s.steps) := by
  constructor
  · intro hm
    have herr : submit_outputs s rid outputs = .error .incompleteSubmission := by
      unfold submit_outputs
      simp only [h]
      rw [if_neg (by rw [hm]; exact Bool.false_ne_true)]
    refine ⟨herr, ?_⟩
    simp only [step, herr]
  · intro hm
    have hok : submit_outputs s rid outputs =
        .ok { s with pending := s.pending.map (fun p =>
          if p.1 = rid then
            (p.1, p.2.map (fun c =>
              { c with submitted := true, output := assocGet outputs c.id }))
          else p) } := by
      unfold submit_outputs
      simp only [h]
      rw [if_pos hm]
    have hlook : lookupPending { s with pending := s.pending.map (fun p =>
        if p.1 = rid then
          (p.1, p.2.map (fun c =>
            { c with submitted := true, output := assocGet outputs c.id }))
        else p) } rid = some (batch.map (fun c =>
          { c with submitted := true, output := assocGet outputs c.id })) := by
      show assocGet (s.pending.map (fun p =>
        if p.1 = rid then
          (p.1, p.2.map (fun c =>
            { c with submitted := true, output := assocGet outputs c.id }))
        else p)) rid = _
      rw [assocGet_mapValueAt s.pending rid (fun calls => calls.map (fun c =>
        { c with submitted := true, output := assocGet outputs c.id }))]
      rw [show assocGet s.pending rid = some batch from h]
      rfl
    refine ⟨_, hok, ?_, hlook, ?_, rfl, rfl⟩
    · simp only [step, hok]
    · unfold canResume
      rw [hlook]
      show (batch.map (fun c =>
        { c with submitted := true, output := assocGet outputs c.id })).all
          (fun c => c.submitted) = true
      rw [List.all_eq_true]
      intro c hc
      obtain ⟨c0, _, rfl⟩ := List.mem_map.mp hc
      rfl

/-- Witness for C2: on the sample pending batch (one call, id 7), an empty
(strict-subset) submission fails with IncompleteSubmission and leaves the
state unchanged, while submitting exactly call 7 succeeds and readies the
run for resumption. -/
theorem c2_witness :
    (submit_outputs samplePending 0 [] = .error .incompleteSubmission ∧
      step samplePending (.submitOutputs 0 []) = samplePending) ∧
    (∃ s2, submit_outputs samplePending 0 [(7, "42")] = .ok s2 ∧
      canResume s2 0 = true) := by
  constructor
  · exact (c2_submit_outputs_exact_batch samplePending 0
      [{ id := 7, name := "lookup", arguments := "x"
         submitted := false, output := none }] [] (by decide)).1 (by decide)
  · obtain ⟨s2, h1, _, _, h4, _⟩ := (c2_submit_outputs_exact_batch samplePending 0
      [{ id := 7, name := "lookup", arguments := "x"
         submitted := false, output := none }] [(7, "42")] (by decide)).2 (by decide)
    exact ⟨s2, h1, h4⟩

/-- C4: `cancel_run` is idempotent: two invocations transition the run at
most once and return the same terminal status; cancelling an
already-terminal run changes nothing and returns the existing status (not
an error), while cancelling a non-terminal run returns cancelled and leaves
the run cancelled. -/
theorem c4_cancel_run_idempotent (s : EngineState) (rid : Nat) (run : Run)
    (h : findRun s rid = some run) :
    (cancel_run s rid).1 = (cancel_run (cancel_run s rid).2 rid).1 ∧
    (cancel_run (cancel_run s rid).2 rid).2 = (cancel_run s rid).2 ∧
    (∃ st : RunStatus, (cancel_run s rid).1 = some st ∧ st.isTerminal = true) ∧
    (run.status.isTerminal = true →
      (cancel_run s rid).2 = s ∧ (cancel_run s rid).1 = some run.status) ∧
    (run.status.isTerminal = false →
      (cancel_run s rid).1 = some .cancelled ∧
      findRun (cancel_run s rid).2 rid = some { run with status := .cancelled }) := by
  have hid : (run.id == rid) = true :=
    List.find?_some (p := fun r : Run => r.id == rid) (a := run) h
  by_cases hterm : run.status.isTerminal = true
  · have hc : cancel_run s rid = (some run.status, s) := by
      unfold cancel_run
      rw [h]
      exact if_pos hterm
    rw [hc]
    refine ⟨?_, ?_, ⟨run.status, rfl, hterm⟩, fun _ => ⟨rfl, rfl⟩, ?_⟩
    · show some run.status = (cancel_run s rid).1
      rw [hc]
    · show (cancel_run s rid).2 = s
      rw [hc]
    · intro hf
      exact absurd (hterm.symm.trans hf) (by decide)
  · have hterm2 : run.status.isTerminal = false := by
      rwa [Bool.not_eq_true] at hterm
    have h1 : findRun (step s (.cancelRequest rid)) rid =
        some { run with status := .cancelling } := by
      have heq := findRun_step_setStatus s rid
        (fun st => st == .queued || st == .inProgress || st == .requiresAction)
        .cancelling rid run h
      have hfr : findRun (step s (Event.cancelRequest rid)) rid =
          findRun (setStatusIf s rid
            (fun st => st == .queued || st == .inProgress || st == .requiresAction)
            .cancelling) rid := rfl
      rw [hfr, heq]
      obtain ⟨rid0, t0, a0, st0⟩ := run
      simp only at hid hterm2 ⊢
      cases st0 <;> simp_all [RunStatus.isTerminal]
    have h2 : findRun (step (step s (.cancelRequest rid)) (.cancelFinish rid)) rid =
        some { run with status := .cancelled } := by
      have hfr : findRun (step (step s (.cancelRequest rid)) (Event.cancelFinish rid)) rid =
          findRun (setStatusIf (step s (.cancelRequest rid)) rid
            (fun st => st == .cancelling) .cancelled) rid := by
        simp only [step]
        split <;> rfl
      rw [hfr, findRun_step_setStatus (step s (.cancelRequest rid)) rid
        (fun st => st == .cancelling) .cancelled rid
        { run with status := .cancelling } h1]
      obtain ⟨rid0, t0, a0, st0⟩ := run
      simp only at hid ⊢
      simp [hid]
    have hcnr : cancel_run s rid =
        (some .cancelled, step (step s (.cancelRequest rid)) (.cancelFinish rid)) := by
      unfold cancel_run
      rw [h]
      exact if_neg hterm
    have hc2 : cancel_run (step (step s (.cancelRequest rid)) (.cancelFinish rid)) rid =
        (some .cancelled, step (step s (.cancelRequest rid)) (.cancelFinish rid)) := by
      unfold cancel_run
      rw [h2]
      exact if_pos rfl
    rw [hcnr]
    refine ⟨?_, ?_, ⟨.cancelled, rfl, rfl⟩, ?_, fun _ => ⟨rfl, h2⟩⟩
    · show some RunStatus.cancelled = (cancel_run _ rid).1
      rw [hc2]
    · show (cancel_run _ rid).2 = _
      rw [hc2]
    · intro hf
      exact absurd (hterm2.symm.trans hf) (by decide)

/-- Witness for C4: cancelling the queued sample run returns cancelled; a
second cancel returns the same status and changes nothing; cancelling the
completed sample run is a no-op returning completed. -/
theorem c4_witness :
    (cancel_run sampleQueued 0).1 = some .cancelled ∧
    (cancel_run sampleQueued 0).1 = (cancel_run (cancel_run sampleQueued 0).2 0).1 ∧
    (cancel_run sampleDone 0).2 = sampleDone ∧
    (cancel_run sampleDone 0).1 = some .completed := by
  have hq := c4_cancel_run_idempotent sampleQueued 0
    { id := 0, threadId := 1, assistantId := 2, status := .queued } (by decide)
  have hd := c4_cancel_run_idempotent sampleDone 0
    { id := 0, threadId := 1, assistantId := 2, status := .completed } (by decide)
  exact ⟨(hq.2.2.2.2 (by decide)).1, hq.1, (hd.2.2.2.1 (by decide)).1,
    (hd.2.2.2.1 (by decide)).2⟩

/-- C5: `list_steps(run_id)` returns a sequence strictly increasing by
creation order on every read of a reachable state; across any further
events a prior read's entries remain an unchanged initial segment in their
creation data (id, run, type) — steps are append-only, never reordered, and
never mutated by readers — and a step already finalized (the one in-place
status change §3 sanctions) never changes again. -/
theorem c5_list_steps_append_only :
    (∀ (es : List Event) (rid : Nat),
      List.Pairwise (fun a b => a.id < b.id)
        (list_steps (applyEvents initState es) rid)) ∧
    (∀ (s : EngineState) (es : List Event) (rid : Nat), ∃ tail,
      (list_steps (applyEvents s es) rid).map creationData =
        (list_steps s rid).map creationData ++ tail) ∧
    (∀ (s : EngineState) (es : List Event) (st : RunStep),
      st ∈ s.steps → ¬ st.status = .stepInProgress →
      st ∈ (applyEvents s es).steps) := by
  refine ⟨?_, ?_, ?_⟩
  · intro es rid
    have hwf := stepsWF_applyEvents es initState
      ⟨List.Pairwise.nil, fun st hst => absurd hst (List.not_mem_nil st)⟩
    exact List.Pairwise.sublist (List.filter_sublist _) hwf.1
  · intro s es rid
    exact list_steps_applyEvents_extends es s rid
  · intro s es st h1 h2
    exact finalized_step_mem_applyEvents es s st h1 h2

/-- Witness for C5: the finalized sample step survives a later finalize
event unchanged. -/
theorem c5_witness :
    ({ id := 0, runId := 0, type := .messageCreation
       status := .stepCompleted } : RunStep) ∈
      (applyEvents sampleWithStep [.finalizeStep 0 false]).steps :=
  c5_list_steps_append_only.2.2 sampleWithStep [.finalizeStep 0 false]
    { id := 0, runId := 0, type := .messageCreation, status := .stepCompleted }
    (by decide) (by decide)

/-- C6: for every exposed endpoint, a request lacking valid authentication
(no credential, or a credential the validator rejects) is answered 401 and
never reaches the core: no core operation is invoked and the core state is
untouched. -/
theorem c6_unauthenticated_rejected
    (validToken : String → Bool) (req : ApiRequest) (s : EngineState) :
    (authValid validToken req = false →
      handle_request validToken req s = (401, [], s)) ∧
    (req.auth = none →
      handle_request validToken req s = (401, [], s)) := by
  constructor
  · intro hv
    unfold handle_request
    rw [if_neg (by rw [hv]; exact Bool.false_ne_true)]
  · intro hnone
    unfold handle_request
    rw [if_neg (by unfold authValid; rw [hnone]; exact Bool.false_ne_true)]

/-- Witness for C6: a credential-less POST to the runs endpoint is answered
401 without touching the core, whatever the validator. -/
theorem c6_witness :
    handle_request (fun _ => true) { endpoint := .createRun, auth := none }
      initState = (401, [], initState) :=
  (c6_unauthenticated_rejected (fun _ => true)
    { endpoint := .createRun, auth := none } initState).2 rfl

/-- C7: the Instance Store's `create` fails with Conflict exactly when the
id already exists, a successful create stores the entity under its id, and
the mutating operations (update, delete) fail with NotFound when the id
does not exist. -/
theorem c7_instance_store (α : Type) (s : List (String × α)) (id : String) (v : α) :
    ((assocGet s id).isSome = true → storeCreate s id v = .error .conflict) ∧
    (assocGet s id = none →
      storeCreate s id v = .ok (s ++ [(id, v)]) ∧
      assocGet (s ++ [(id, v)]) id = some v) ∧
    (assocGet s id = none →
      storeUpdate s id v = .error .notFound ∧
      storeDelete s id = .error .notFound) := by
  refine ⟨?_, ?_, ?_⟩
  · intro hs
    unfold storeCreate
    cases hb : assocGet s id with
    | none => rw [hb] at hs; exact absurd hs (by simp)
    | some w => rfl
  · intro hnone
    unfold storeCreate
    rw [hnone]
    exact ⟨rfl, assocGet_append_self s id v hnone⟩
  · intro hnone
    unfold storeUpdate storeDelete
    rw [hnone]
    exact ⟨rfl, rfl⟩

/-- Witness for C7: creating "a" in the empty store succeeds and stores it;
creating "a" again fails with Conflict; updating absent "b" fails with
NotFound. -/
theorem c7_witness :
    storeCreate ([] : List (String × Nat)) "a" 1 = .ok [("a", 1)] ∧
    assocGet [("a", 1)] "a" = some 1 ∧
    storeCreate [("a", 1)] "a" 2 = .error .conflict ∧
    storeUpdate [("a", 1)] "b" 2 = .error .notFound := by
  refine ⟨?_, ?_, ?_, ?_⟩
  · exact ((c7_instance_store Nat [] "a" 1).2.1 rfl).1
  · exact ((c7_instance_store Nat [] "a" 1).2.1 rfl).2
  · exact (c7_instance_store Nat [("a", 1)] "a" 2).1 (by decide)
  · exact ((c7_instance_store Nat [("a", 1)] "b" 2).2.2 (by decide)).1

/-- C8: `create_file` succeeds exactly when the body's purpose is
"fine-tune", returning a FileObject stored in the instance store's
file_objects map under its own (fresh) id; any other purpose raises
NotImplementedError with the store untouched; `delete_file`,
`download_file`, `list_files` and `retrieve_file` raise NotImplementedError
on every input. -/
theorem c8_files_controller :
    (∀ (purpose : Option String) (file : UploadedFile) (freshId : String)
        (now : Nat) (store : FilesStore),
      (purpose = some "fine-tune" →
        ∃ obj : FileObject,
          create_file purpose file freshId now store =
            (.ok obj, dictSet store obj.id obj) ∧
          obj.id = freshId ∧
          assocGet (create_file purpose file freshId now store).2 obj.id =
            some obj) ∧
      (¬ purpose = some "fine-tune" →
        create_file purpose file freshId now store =
          (.error .notImplemented, store))) ∧
    (∀ fid, delete_file fid = .error .notImplemented) ∧
    (∀ fid, download_file fid = .error .notImplemented) ∧
    (∀ p, list_files p = .error .notImplemented) ∧
    (∀ fid, retrieve_file fid = .error .notImplemented) := by
  refine ⟨?_, fun _ => rfl, fun _ => rfl, fun _ => rfl, fun _ => rfl⟩
  intro purpose file freshId now store
  constructor
  · intro hp
    subst hp
    refine ⟨{ id := freshId, bytes := file.size, created_at := now
              filename := file.filename, object := "file"
              purpose := "fine-tune", status := "uploaded" }, ?_, rfl, ?_⟩
    · unfold create_file
      rw [if_pos rfl]
    · exact assocGet_dictSet_self store freshId _
  · intro hp
    unfold create_file
    rw [if_neg hp]

/-- Witness for C8: uploading with purpose "assistants" is rejected with the
store untouched; uploading with purpose "fine-tune" succeeds and the object
is retrievable under the returned id. -/
theorem c8_witness :
    create_file (some "assistants") { size := 3, filename := "a.jsonl" }
      "id1" 5 [] = (.error .notImplemented, []) ∧
    (∃ obj : FileObject,
      create_file (some "fine-tune") { size := 3, filename := "a.jsonl" }
        "id1" 5 [] = (.ok obj, dictSet [] obj.id obj) ∧ obj.id = "id1") := by
  constructor
  · exact ((c8_files_controller.1 (some "assistants")
      { size := 3, filename := "a.jsonl" } "id1" 5 []).2 (by decide))
  · obtain ⟨obj, ho, hi, _⟩ := (c8_files_controller.1 (some "fine-tune")
      { size := 3, filename := "a.jsonl" } "id1" 5 []).1 rfl
    exact ⟨obj, ho, hi⟩

/-- C9: the message setter of GetAgentTask404Response rejects None with a
ValueError (raised before any assignment, so the stored attribute is
untouched) and accepts every string; yet the constructor assigns the
attribute directly, so GetAgentTask404Response() and
GetAgentTask404Response(message=None) both succeed with message None — the
setter's non-None rule does not hold of freshly constructed instances. -/
theorem c9_message_setter_vs_init :
    (∀ r : GetAgentTask404Response, r.setMessage none = .error .invalidNone) ∧
    (∀ (r : GetAgentTask404Response) (v : String),
      r.setMessage (some v) = .ok { msg := some v }) ∧
    (GetAgentTask404Response.init none).message = none ∧
    (∀ m : Option String, (GetAgentTask404Response.init m).message = m) :=
  ⟨fun _ => rfl, fun _ _ => rfl, rfl, fun _ => rfl⟩

/-- C10: the POST /v1/engines/{engine}/completions handler raises
NotImplementedError for every engine other than "copilot-codex"; for
"copilot-codex" it overwrites the body's "model" field with "LLaMA_CPP"
(whatever its prior value) and returns the result of delegating the body to
create_completion. -/
theorem c10_code_completion_route (Resp : Type)
    (create_completion : JsonBody → Resp) (engine : String) (body : JsonBody) :
    (¬ engine = "copilot-codex" →
      create_code_completion create_completion engine body =
        .error .notImplemented) ∧
    (engine = "copilot-codex" →
      create_code_completion create_completion engine body =
        .ok (create_completion (dictSet body "model" "LLaMA_CPP")) ∧
      assocGet (dictSet body "model" "LLaMA_CPP") "model" =
        some "LLaMA_CPP") := by
  constructor
  · intro hne
    unfold create_code_completion
    rw [if_neg hne]
  · intro heq
    subst heq
    refine ⟨?_, assocGet_dictSet_self body "model" "LLaMA_CPP"⟩
    unfold create_code_completion
    rw [if_pos rfl]

/-- Witness for C10: engine "davinci" is rejected; engine "copilot-codex"
delegates with the model field forced to "LLaMA_CPP" even though the body
carried another model. -/
theorem c10_witness :
    create_code_completion (fun b => b.length) "davinci" [] =
      .error .notImplemented ∧
    create_code_completion (fun b => b.length) "copilot-codex"
      [("model", "gpt")] =
      .ok ((dictSet [("model", "gpt")] "model" "LLaMA_CPP").length) ∧
    assocGet (dictSet [("model", "gpt")] "model" "LLaMA_CPP") "model" =
      some "LLaMA_CPP" := by
  refine ⟨?_, ?_, ?_⟩
  · exact (c10_code_completion_route Nat (fun b => b.length) "davinci" []).1
      (by decide)
  · exact ((c10_code_completion_route Nat (fun b => b.length) "copilot-codex"
      [("model", "gpt")]).2 rfl).1
  · exact ((c10_code_completion_route Nat (fun b => b.length) "copilot-codex"
      [("model", "gpt")]).2 rfl).2

end Timestep
